import Mathlib

/-!
Verification of the loan-ranger numeric core (`src/lib/calculator.ts`).

The engine is embedded shallowly over `ℚ`: JavaScript numbers become exact
rationals, the `try/catch` around the Newton-Raphson solver becomes an
`Except` value, and the IEEE `NaN` that `computeLoanOutput` stores in its
rate fields on non-convergence is modelled by `Option ℚ` (`none` = NaN,
which is exactly the information `NaN` carries there: "no rate available",
propagated through subtraction).
-/

namespace LoanRanger

/-- Input record of `computeLoanOutput` (interface `LoanInput`). -/
structure LoanInput where
  principal : ℚ
  annualRate : ℚ
  months : ℕ
  initialFees : ℚ
  insuranceCost : ℚ

/-- Result of `computeInterestCost`. -/
structure InterestCost where
  monthlyInstallmentWithoutInsurance : ℚ
  totalInterests : ℚ

/-- The amortization engine `computeInterestCost` from `calculator.ts`:
monthly rate by simple division by 12, zero-rate branch, otherwise the
closed-form annuity formula. -/
def computeInterestCost (annualRate : ℚ) (months : ℕ) (principal : ℚ) : InterestCost :=
  let monthlyRate := annualRate / 12
  if monthlyRate = 0 then
    ⟨principal / (months : ℚ), 0⟩
  else
    let compoundFactor := (1 + monthlyRate) ^ months
    let m := principal * monthlyRate * compoundFactor / (compoundFactor - 1)
    ⟨m, m * (months : ℚ) - principal⟩

/-- The two exceptions `newton` can throw in the source. -/
inductive NewtonError : Type where
  | derivativeTooSmall
  | maxIterationsReached
  deriving DecidableEq

/-- The solver tolerance `epsilon = 1e-7` (default parameter of `newton`). -/
def epsilon : ℚ := 1 / 10000000

/-- Fuel-indexed Newton-Raphson loop, the body of `newton`: accept when
`|value| < epsilon`, abort when `|derivative| < epsilon`, otherwise step
`x ← x - value / derivative`; throwing becomes an `Except.error`. -/
def newtonGo (f : ℚ → ℚ × ℚ) : ℕ → ℚ → Except NewtonError ℚ
  | 0, _ => .error .maxIterationsReached
  | fuel + 1, x =>
    if |(f x).1| < epsilon then .ok x
    else if |(f x).2| < epsilon then .error .derivativeTooSmall
    else newtonGo f fuel (x - (f x).1 / (f x).2)

/-- `newton` from `calculator.ts`, with its default parameters
`epsilon = 1e-7` and `maxIterations = 100` (the only way it is called). -/
def newton (f : ℚ → ℚ × ℚ) (x0 : ℚ) : Except NewtonError ℚ :=
  newtonGo f 100 x0

/-- One Newton update as a total function on iterates: at a stopping point
(small value or small derivative) the iterate is frozen, otherwise it moves to
`x - value / derivative` exactly as the loop does. -/
def newtonStep (f : ℚ → ℚ × ℚ) (x : ℚ) : ℚ :=
  if |(f x).1| < epsilon ∨ |(f x).2| < epsilon then x
  else x - (f x).1 / (f x).2

/-- The closure `objectiveFunction` built inside `computeEffectiveAnnualRate`:
value `Σ_{i<months} averageInstallment * rate^(i+1) + (initialFees - principal)`
and derivative `(Σ_{i<months} (i+1) * rate^i) * averageInstallment`. -/
def objectiveFunction (averageInstallment initialFees principal : ℚ) (months : ℕ)
    (rate : ℚ) : ℚ × ℚ :=
  ((∑ i ∈ Finset.range months, averageInstallment * rate ^ (i + 1)) +
      (initialFees - principal),
   (∑ i ∈ Finset.range months, ((i : ℚ) + 1) * rate ^ i) * averageInstallment)

/-- Argument record of `computeEffectiveAnnualRate`. -/
structure EffRateInput where
  months : ℕ
  principal : ℚ
  initialFees : ℚ
  totalCost : ℚ

/-- The tagged (two-outcome) result of `computeEffectiveAnnualRate`. -/
inductive EffRateResult : Type where
  | converged (rate : ℚ)
  | nonConverged
  deriving DecidableEq

/-- The derived average installment of `computeEffectiveAnnualRate`:
`(totalReimbursed - initialFees) / months` with
`totalReimbursed = totalCost + principal`. -/
def averageInstallment (inp : EffRateInput) : ℚ :=
  (inp.totalCost + inp.principal - inp.initialFees) / (inp.months : ℚ)

/-- The objective handed to `newton` by `computeEffectiveAnnualRate`. -/
def objective (inp : EffRateInput) : ℚ → ℚ × ℚ :=
  objectiveFunction (averageInstallment inp) inp.initialFees inp.principal inp.months

/-- The `try`/`catch` wrapper of `computeEffectiveAnnualRate`: a returned
root is annualized via `(1/x)^12 - 1`, a thrown error is caught and becomes
the tagged `nonConverged` outcome. -/
def annualize : Except NewtonError ℚ → EffRateResult
  | .ok rate => .converged ((1 / rate) ^ 12 - 1)
  | .error _ => .nonConverged

/-- `computeEffectiveAnnualRate` from `calculator.ts`: run Newton-Raphson
on the cash-flow objective starting from `x0 = 0.99` and annualize. -/
def computeEffectiveAnnualRate (inp : EffRateInput) : EffRateResult :=
  annualize (newton (objective inp) (99 / 100))

/-- The `rate` field read off the solver result; `none` models the
`undefined`-then-`?? NaN` path of the source. -/
def rateOrNaN : EffRateResult → Option ℚ
  | .converged r => some r
  | .nonConverged => none

/-- NaN-propagating subtraction on the `Option ℚ` model of JS numbers. -/
def subNaN (a b : Option ℚ) : Option ℚ :=
  match a with
  | none => none
  | some x =>
    match b with
    | none => none
    | some y => some (x - y)

/-- Output record of `computeLoanOutput` (interface `LoanOutput`); the two
rate fields are `Option ℚ` because the source can store `NaN` there. -/
structure LoanOutput where
  monthlyInstallmentWithoutInsurance : ℚ
  fullInstallment : ℚ
  totalInterests : ℚ
  totalCostWithoutInsurance : ℚ
  totalCost : ℚ
  effectiveAnnualRate : Option ℚ
  effectiveInsuranceAnnualRate : Option ℚ

/-- The solver input used for the all-in rate (first call in
`computeLoanOutput`): `totalCost = initialFees + totalInterests + insuranceCost`. -/
def allInSolveInput (t : LoanInput) : EffRateInput :=
  ⟨t.months, t.principal, t.initialFees,
    t.initialFees + (computeInterestCost t.annualRate t.months t.principal).totalInterests +
      t.insuranceCost⟩

/-- The solver input used for the insurance-excluded rate (second call in
`computeLoanOutput`): `totalCost = initialFees + totalInterests`. -/
def exclInsuranceSolveInput (t : LoanInput) : EffRateInput :=
  ⟨t.months, t.principal, t.initialFees,
    t.initialFees + (computeInterestCost t.annualRate t.months t.principal).totalInterests⟩

/-- `computeLoanOutput` from `calculator.ts`. -/
def computeLoanOutput (t : LoanInput) : LoanOutput :=
  let ic := computeInterestCost t.annualRate t.months t.principal
  let totalCost := t.initialFees + t.insuranceCost + ic.totalInterests
  let fullInstallment := (t.principal + ic.totalInterests + t.insuranceCost) / (t.months : ℚ)
  let r1 := computeEffectiveAnnualRate (allInSolveInput t)
  let r2 := computeEffectiveAnnualRate (exclInsuranceSolveInput t)
  ⟨ic.monthlyInstallmentWithoutInsurance,
   fullInstallment,
   ic.totalInterests,
   t.initialFees + ic.totalInterests,
   totalCost,
   rateOrNaN r1,
   subNaN (rateOrNaN r1) (rateOrNaN r2)⟩

/-! ### Basic stepping lemmas for the Newton loop -/

/-- If the value test succeeds, one more unit of fuel returns the iterate. -/
lemma newtonGo_ok_of_value (f : ℚ → ℚ × ℚ) (fuel : ℕ) (x : ℚ)
    (h : |(f x).1| < epsilon) : newtonGo f (fuel + 1) x = .ok x := by
  simp only [newtonGo, if_pos h]

/-- If the value test fails but the derivative test fires, the loop aborts. -/
lemma newtonGo_derivAbort (f : ℚ → ℚ × ℚ) (fuel : ℕ) (x : ℚ)
    (hv : ¬ |(f x).1| < epsilon) (hd : |(f x).2| < epsilon) :
    newtonGo f (fuel + 1) x = .error .derivativeTooSmall := by
  simp only [newtonGo, if_neg hv, if_pos hd]

/-- If neither test fires, the loop takes one Newton step. -/
lemma newtonGo_step (f : ℚ → ℚ × ℚ) (fuel : ℕ) (x : ℚ)
    (hv : ¬ |(f x).1| < epsilon) (hd : ¬ |(f x).2| < epsilon) :
    newtonGo f (fuel + 1) x = newtonGo f fuel (x - (f x).1 / (f x).2) := by
  simp only [newtonGo, if_neg hv, if_neg hd]

/-- `newton` accepts immediately when the starting point already satisfies
the convergence test. -/
lemma newton_ok_at_start (f : ℚ → ℚ × ℚ) (x0 : ℚ) (h : |(f x0).1| < epsilon) :
    newton f x0 = .ok x0 := by
  rw [newton, show (100 : ℕ) = 99 + 1 from rfl]
  exact newtonGo_ok_of_value f 99 x0 h

/-- `newton` aborts immediately on a flat tangent at the starting point. -/
lemma newton_derivAbort_at_start (f : ℚ → ℚ × ℚ) (x0 : ℚ)
    (hv : ¬ |(f x0).1| < epsilon) (hd : |(f x0).2| < epsilon) :
    newton f x0 = .error .derivativeTooSmall := by
  rw [newton, show (100 : ℕ) = 99 + 1 from rfl]
  exact newtonGo_derivAbort f 99 x0 hv hd

/-- On a successful Newton run the solver annualizes the root. -/
lemma computeEffectiveAnnualRate_of_ok (inp : EffRateInput) (r : ℚ)
    (h : newton (objective inp) (99 / 100) = .ok r) :
    computeEffectiveAnnualRate inp = .converged ((1 / r) ^ 12 - 1) := by
  rw [computeEffectiveAnnualRate, h]
  rfl

/-- On a failed Newton run the solver reports `nonConverged`. -/
lemma computeEffectiveAnnualRate_of_error (inp : EffRateInput) (e : NewtonError)
    (h : newton (objective inp) (99 / 100) = .error e) :
    computeEffectiveAnnualRate inp = .nonConverged := by
  rw [computeEffectiveAnnualRate, h]
  rfl

/-- At a stopping point the total-step function freezes the iterate. -/
lemma newtonStep_of_stop (f : ℚ → ℚ × ℚ) (x : ℚ)
    (h : |(f x).1| < epsilon ∨ |(f x).2| < epsilon) : newtonStep f x = x :=
  if_pos h

/-- Away from stopping points the total-step function takes the Newton step. -/
lemma newtonStep_of_move (f : ℚ → ℚ × ℚ) (x : ℚ)
    (hv : ¬ |(f x).1| < epsilon) (hd : ¬ |(f x).2| < epsilon) :
    newtonStep f x = x - (f x).1 / (f x).2 :=
  if_neg (not_or.mpr ⟨hv, hd⟩)

/-- The loop accepts within `n` units of fuel exactly when one of the first
`n` iterates already passes the convergence test. -/
lemma newtonGo_ok_iff (f : ℚ → ℚ × ℚ) (n : ℕ) :
    ∀ x : ℚ, (∃ y, newtonGo f n x = .ok y) ↔
      ∃ i < n, |(f ((newtonStep f)^[i] x)).1| < epsilon := by
  induction n with
  | zero =>
    intro x
    constructor
    · rintro ⟨y, hy⟩
      exact Except.noConfusion hy
    · rintro ⟨i, hi, _⟩
      exact absurd hi (Nat.not_lt_zero i)
  | succ n ih =>
    intro x
    by_cases hv : |(f x).1| < epsilon
    · constructor
      · intro _
        exact ⟨0, Nat.succ_pos n, by simpa using hv⟩
      · intro _
        exact ⟨x, newtonGo_ok_of_value f n x hv⟩
    · by_cases hd : |(f x).2| < epsilon
      · rw [newtonGo_derivAbort f n x hv hd]
        have hfix : newtonStep f x = x := newtonStep_of_stop f x (Or.inr hd)
        constructor
        · rintro ⟨y, hy⟩
          exact Except.noConfusion hy
        · rintro ⟨i, _, hi⟩
          rw [Function.iterate_fixed hfix i] at hi
          exact absurd hi hv
      · rw [newtonGo_step f n x hv hd, ih (x - (f x).1 / (f x).2)]
        have hstep : newtonStep f x = x - (f x).1 / (f x).2 := newtonStep_of_move f x hv hd
        constructor
        · rintro ⟨i, hin, hi⟩
          refine ⟨i + 1, Nat.succ_lt_succ hin, ?_⟩
          rwa [Function.iterate_succ_apply, hstep]
        · rintro ⟨i, hin, hi⟩
          cases i with
          | zero => exact absurd (by simpa using hi) hv
          | succ j =>
            refine ⟨j, Nat.lt_of_succ_lt_succ hin, ?_⟩
            rwa [Function.iterate_succ_apply, hstep] at hi

/-- The loop aborts with the flat-tangent error within `n` units of fuel
exactly when some iterate among the first `n` has derivative below the
tolerance while no iterate up to and including it passes the value test. -/
lemma newtonGo_derivError_iff (f : ℚ → ℚ × ℚ) (n : ℕ) :
    ∀ x : ℚ, newtonGo f n x = .error .derivativeTooSmall ↔
      ∃ i < n, |(f ((newtonStep f)^[i] x)).2| < epsilon ∧
        ∀ j ≤ i, epsilon ≤ |(f ((newtonStep f)^[j] x)).1| := by
  induction n with
  | zero =>
    intro x
    constructor
    · intro h
      injection h with h2
      exact NewtonError.noConfusion h2
    · rintro ⟨i, hi, _⟩
      exact absurd hi (Nat.not_lt_zero i)
  | succ n ih =>
    intro x
    by_cases hv : |(f x).1| < epsilon
    · rw [newtonGo_ok_of_value f n x hv]
      constructor
      · intro h
        exact Except.noConfusion h
      · rintro ⟨i, _, _, hall⟩
        exact absurd hv (not_lt.mpr (by simpa using hall 0 (Nat.zero_le i)))
    · by_cases hd : |(f x).2| < epsilon
      · rw [newtonGo_derivAbort f n x hv hd]
        constructor
        · intro _
          refine ⟨0, Nat.succ_pos n, by simpa using hd, ?_⟩
          intro j hj
          rw [Nat.le_zero.mp hj]
          simpa using not_lt.mp hv
        · intro _
          rfl
      · rw [newtonGo_step f n x hv hd, ih (x - (f x).1 / (f x).2)]
        have hstep : newtonStep f x = x - (f x).1 / (f x).2 := newtonStep_of_move f x hv hd
        constructor
        · rintro ⟨i, hin, hd2, hall⟩
          refine ⟨i + 1, Nat.succ_lt_succ hin, ?_, ?_⟩
          · rwa [Function.iterate_succ_apply, hstep]
          · intro j hj
            cases j with
            | zero => simpa using not_lt.mp hv
            | succ k =>
              rw [Function.iterate_succ_apply, hstep]
              exact hall k (Nat.le_of_succ_le_succ hj)
        · rintro ⟨i, hin, hd2, hall⟩
          cases i with
          | zero => exact absurd (by simpa using hd2) hd
          | succ j =>
            refine ⟨j, Nat.lt_of_succ_lt_succ hin, ?_, ?_⟩
            · rwa [Function.iterate_succ_apply, hstep] at hd2
            · intro k hk
              have := hall (k + 1) (Nat.succ_le_succ hk)
              rwa [Function.iterate_succ_apply, hstep] at this

/-- The loop exhausts `n` units of fuel exactly when none of the first `n`
iterates triggers either the value test or the derivative test. -/
lemma newtonGo_maxIterError_iff (f : ℚ → ℚ × ℚ) (n : ℕ) :
    ∀ x : ℚ, newtonGo f n x = .error .maxIterationsReached ↔
      ∀ i < n, epsilon ≤ |(f ((newtonStep f)^[i] x)).1| ∧
        epsilon ≤ |(f ((newtonStep f)^[i] x)).2| := by
  induction n with
  | zero =>
    intro x
    constructor
    · intro _ i hi
      exact absurd hi (Nat.not_lt_zero i)
    · intro _
      rfl
  | succ n ih =>
    intro x
    by_cases hv : |(f x).1| < epsilon
    · rw [newtonGo_ok_of_value f n x hv]
      constructor
      · intro h
        exact Except.noConfusion h
      · intro h
        exact absurd hv (not_lt.mpr (by simpa using (h 0 (Nat.succ_pos n)).1))
    · by_cases hd : |(f x).2| < epsilon
      · rw [newtonGo_derivAbort f n x hv hd]
        constructor
        · intro h
          injection h with h2
          exact NewtonError.noConfusion h2
        · intro h
          exact absurd hd (not_lt.mpr (by simpa using (h 0 (Nat.succ_pos n)).2))
      · rw [newtonGo_step f n x hv hd, ih (x - (f x).1 / (f x).2)]
        have hstep : newtonStep f x = x - (f x).1 / (f x).2 := newtonStep_of_move f x hv hd
        constructor
        · intro h i hin
          cases i with
          | zero => exact ⟨by simpa using not_lt.mp hv, by simpa using not_lt.mp hd⟩
          | succ j =>
            have := h j (Nat.lt_of_succ_lt_succ hin)
            rwa [Function.iterate_succ_apply, hstep]
        · intro h i hin
          have := h (i + 1) (Nat.succ_lt_succ hin)
          rwa [Function.iterate_succ_apply, hstep] at this

/-- The solver converges exactly when `newton` returns a root. -/
lemma converged_iff_newton_ok (inp : EffRateInput) :
    (∃ r, computeEffectiveAnnualRate inp = .converged r) ↔
      ∃ y, newton (objective inp) (99 / 100) = .ok y := by
  cases h : newton (objective inp) (99 / 100) with
  | ok y => simp [computeEffectiveAnnualRate_of_ok inp y h, h]
  | error e => simp [computeEffectiveAnnualRate_of_error inp e h, h]

/-- Zero-rate branch of the amortization engine, as an equation. -/
lemma computeInterestCost_zero_rate (months : ℕ) (principal : ℚ) :
    computeInterestCost 0 months principal = ⟨principal / (months : ℚ), 0⟩ := by
  simp [computeInterestCost]

/-- Positive-rate branch of the amortization engine, as an equation. -/
lemma computeInterestCost_pos_rate (annualRate : ℚ) (months : ℕ) (principal : ℚ)
    (ha : annualRate ≠ 0) :
    computeInterestCost annualRate months principal =
      ⟨principal * (annualRate / 12) * (1 + annualRate / 12) ^ months /
          ((1 + annualRate / 12) ^ months - 1),
        principal * (annualRate / 12) * (1 + annualRate / 12) ^ months /
            ((1 + annualRate / 12) ^ months - 1) * (months : ℚ) - principal⟩ := by
  have h12 : annualRate / 12 ≠ 0 := div_ne_zero ha (by norm_num)
  simp only [computeInterestCost, if_neg h12]

/-! ### Claim theorems -/

/-- C1: on every solver input the effective-rate solver runs Newton-Raphson
on the objective from `x0 = 0.99` and (1) converges exactly when one of the
first 100 iterates passes the `|g(x)| < 1e-7` test, (2) aborts with the
flat-tangent error exactly when the derivative dips below `1e-7` in absolute
value at some iterate before any
convergence, (3) aborts with the iteration-cap error exactly when 100
iterations pass without either test firing, and (4) both aborts surface as
the tagged `nonConverged` outcome handed to the caller, never an exception. -/
theorem solver_convergence_characterization (inp : EffRateInput) :
    ((∃ r, computeEffectiveAnnualRate inp = .converged r) ↔
      ∃ i < 100, |(objective inp ((newtonStep (objective inp))^[i] (99 / 100))).1| < epsilon) ∧
    (newton (objective inp) (99 / 100) = .error .derivativeTooSmall ↔
      ∃ i < 100, |(objective inp ((newtonStep (objective inp))^[i] (99 / 100))).2| < epsilon ∧
        ∀ j ≤ i, epsilon ≤ |(objective inp ((newtonStep (objective inp))^[j] (99 / 100))).1|) ∧
    (newton (objective inp) (99 / 100) = .error .maxIterationsReached ↔
      ∀ i < 100, epsilon ≤ |(objective inp ((newtonStep (objective inp))^[i] (99 / 100))).1| ∧
        epsilon ≤ |(objective inp ((newtonStep (objective inp))^[i] (99 / 100))).2|) ∧
    (∀ e, newton (objective inp) (99 / 100) = .error e →
      computeEffectiveAnnualRate inp = .nonConverged) :=
  ⟨(converged_iff_newton_ok inp).trans (newtonGo_ok_iff (objective inp) 100 (99 / 100)),
   newtonGo_derivError_iff (objective inp) 100 (99 / 100),
   newtonGo_maxIterError_iff (objective inp) 100 (99 / 100),
   fun e he => computeEffectiveAnnualRate_of_error inp e he⟩

/-- Witness for C1: a degenerate input (zero average installment, fees one
unit above principal) makes Newton abort on a flat tangent, and the solver
returns the tagged `nonConverged` outcome. -/
theorem solver_convergence_characterization_witness :
    computeEffectiveAnnualRate ⟨1, 0, 1, 1⟩ = .nonConverged :=
  (solver_convergence_characterization ⟨1, 0, 1, 1⟩).2.2.2 .derivativeTooSmall
    (newton_derivAbort_at_start _ _
      (by norm_num [objective, objectiveFunction, averageInstallment, epsilon,
        Finset.sum_range_succ])
      (by norm_num [objective, objectiveFunction, averageInstallment, epsilon,
        Finset.sum_range_succ]))

/-- C2: at `annualRate = 0` the amortization engine returns installment
`principal / periods` and `totalInterest = 0`, exactly. -/
theorem zero_rate_exact (principal : ℚ) (months : ℕ)
    (hP : 0 ≤ principal) (hm : 1 ≤ months) :
    computeInterestCost 0 months principal = ⟨principal / (months : ℚ), 0⟩ :=
  computeInterestCost_zero_rate months principal

/-- Witness for C2 at `principal = 1200`, `periods = 12`. -/
theorem zero_rate_exact_witness :
    0 ≤ (1200 : ℚ) ∧ 1 ≤ 12 ∧
      computeInterestCost 0 12 1200 = ⟨1200 / ((12 : ℕ) : ℚ), 0⟩ :=
  ⟨by norm_num, by norm_num, zero_rate_exact 1200 12 (by norm_num) (by norm_num)⟩

/-- C3: at a positive rate the amortization engine uses `r = annualRate/12`,
`f = (1+r)^periods`, returns installment `principal*r*f/(f-1)` and
`totalInterest = installment*periods - principal`, so the amortization
identity holds within `1e-9` (here: exactly, hence within tolerance). -/
theorem general_rate_formula (principal annualRate : ℚ) (months : ℕ)
    (hP : 0 ≤ principal) (ha : 0 < annualRate) (hm : 1 ≤ months) :
    (computeInterestCost annualRate months principal).monthlyInstallmentWithoutInsurance =
      principal * (annualRate / 12) * (1 + annualRate / 12) ^ months /
        ((1 + annualRate / 12) ^ months - 1) ∧
    (computeInterestCost annualRate months principal).totalInterests =
      (computeInterestCost annualRate months principal).monthlyInstallmentWithoutInsurance *
        (months : ℚ) - principal ∧
    |(computeInterestCost annualRate months principal).monthlyInstallmentWithoutInsurance *
          (months : ℚ) - principal -
        (computeInterestCost annualRate months principal).totalInterests| <
      1 / 1000000000 := by
  rw [computeInterestCost_pos_rate annualRate months principal (ne_of_gt ha)]
  refine ⟨rfl, rfl, ?_⟩
  rw [sub_self, abs_zero]
  norm_num

/-- Witness for C3 at `principal = 100`, `annualRate = 12`, `periods = 1`. -/
theorem general_rate_formula_witness :
    0 ≤ (100 : ℚ) ∧ 0 < (12 : ℚ) ∧ 1 ≤ 1 ∧
      (computeInterestCost 12 1 100).monthlyInstallmentWithoutInsurance =
        100 * ((12 : ℚ) / 12) * (1 + (12 : ℚ) / 12) ^ (1 : ℕ) /
          ((1 + (12 : ℚ) / 12) ^ (1 : ℕ) - 1) :=
  ⟨by norm_num, by norm_num, le_refl 1,
    (general_rate_formula 100 12 1 (by norm_num) (by norm_num) (le_refl 1)).1⟩

/-- C4: whenever Newton-Raphson converges to a per-period discount factor
`x`, the solver returns the annualized rate `(1/x)^12 - 1`. -/
theorem converged_rate_annualized (inp : EffRateInput) (x : ℚ)
    (h : newton (objective inp) (99 / 100) = .ok x) :
    computeEffectiveAnnualRate inp = .converged ((1 / x) ^ 12 - 1) :=
  computeEffectiveAnnualRate_of_ok inp x h

/-- Witness for C4: on `months = 1`, `principal = 99`, `fees = 0`,
`totalCost = 1` the objective vanishes at the starting point `0.99`, Newton
returns it, and the solver annualizes it. -/
theorem converged_rate_annualized_witness :
    computeEffectiveAnnualRate ⟨1, 99, 0, 1⟩ =
      .converged ((1 / (99 / 100 : ℚ)) ^ 12 - 1) :=
  converged_rate_annualized ⟨1, 99, 0, 1⟩ (99 / 100)
    (newton_ok_at_start _ _
      (by norm_num [objective, objectiveFunction, averageInstallment, epsilon,
        Finset.sum_range_succ]))

/-- C5: `computeLoanOutput` sets `effectiveInsuranceAnnualRate` to the
NaN-propagating difference of the all-in solve (`totalCost = initialFees +
totalInterest + insuranceCost`) and the insurance-excluded solve
(`totalCost = initialFees + totalInterest`): the difference of the two rates
when both converge, NaN (modelled `none`) when either solve fails. -/
theorem insurance_rate_decomposition (t : LoanInput) :
    (computeLoanOutput t).effectiveInsuranceAnnualRate =
      subNaN (rateOrNaN (computeEffectiveAnnualRate (allInSolveInput t)))
        (rateOrNaN (computeEffectiveAnnualRate (exclInsuranceSolveInput t))) ∧
    (∀ a b, computeEffectiveAnnualRate (allInSolveInput t) = .converged a →
      computeEffectiveAnnualRate (exclInsuranceSolveInput t) = .converged b →
      (computeLoanOutput t).effectiveInsuranceAnnualRate = some (a - b)) ∧
    ((computeEffectiveAnnualRate (allInSolveInput t) = .nonConverged ∨
      computeEffectiveAnnualRate (exclInsuranceSolveInput t) = .nonConverged) →
      (computeLoanOutput t).effectiveInsuranceAnnualRate = none) := by
  refine ⟨rfl, ?_, ?_⟩
  · intro a b ha hb
    show subNaN (rateOrNaN (computeEffectiveAnnualRate (allInSolveInput t)))
        (rateOrNaN (computeEffectiveAnnualRate (exclInsuranceSolveInput t))) = some (a - b)
    rw [ha, hb]
    rfl
  · intro h
    show subNaN (rateOrNaN (computeEffectiveAnnualRate (allInSolveInput t)))
        (rateOrNaN (computeEffectiveAnnualRate (exclInsuranceSolveInput t))) = none
    rcases h with h | h
    · rw [h]
      rfl
    · rw [h]
      cases computeEffectiveAnnualRate (allInSolveInput t) <;> rfl

/-- Witness for C5 on a loan where both solves converge immediately:
`principal = 99`, `annualRate = 4/33`, one month, no fees, no insurance. -/
theorem insurance_rate_decomposition_witness :
    (computeLoanOutput ⟨99, 4 / 33, 1, 0, 0⟩).effectiveInsuranceAnnualRate =
      some ((1 / (99 / 100 : ℚ)) ^ 12 - 1 - ((1 / (99 / 100 : ℚ)) ^ 12 - 1)) := by
  have hall : computeEffectiveAnnualRate (allInSolveInput ⟨99, 4 / 33, 1, 0, 0⟩) =
      .converged ((1 / (99 / 100 : ℚ)) ^ 12 - 1) := by
    refine computeEffectiveAnnualRate_of_ok _ _ (newton_ok_at_start _ _ ?_)
    norm_num [objective, objectiveFunction, averageInstallment, allInSolveInput,
      computeInterestCost, epsilon, Finset.sum_range_succ]
  have hexcl : computeEffectiveAnnualRate (exclInsuranceSolveInput ⟨99, 4 / 33, 1, 0, 0⟩) =
      .converged ((1 / (99 / 100 : ℚ)) ^ 12 - 1) := by
    refine computeEffectiveAnnualRate_of_ok _ _ (newton_ok_at_start _ _ ?_)
    norm_num [objective, objectiveFunction, averageInstallment, exclInsuranceSolveInput,
      computeInterestCost, epsilon, Finset.sum_range_succ]
  exact (insurance_rate_decomposition ⟨99, 4 / 33, 1, 0, 0⟩).2.1 _ _ hall hexcl

/-- C9: `computeLoanOutput` returns `totalCost = initialFees + insuranceCost
+ totalInterest`, `totalCostWithoutInsurance = initialFees + totalInterest`,
`fullPeriodicInstallment = (principal + totalInterest + insuranceCost) /
periods`, and with `insuranceCost ≥ 0` the invariant
`totalCostWithoutInsurance ≤ totalCost` holds. -/
theorem loanOutput_totals (t : LoanInput) (hI : 0 ≤ t.insuranceCost) :
    (computeLoanOutput t).totalCost =
      t.initialFees + t.insuranceCost +
        (computeInterestCost t.annualRate t.months t.principal).totalInterests ∧
    (computeLoanOutput t).totalCostWithoutInsurance =
      t.initialFees + (computeInterestCost t.annualRate t.months t.principal).totalInterests ∧
    (computeLoanOutput t).fullInstallment =
      (t.principal + (computeInterestCost t.annualRate t.months t.principal).totalInterests +
        t.insuranceCost) / (t.months : ℚ) ∧
    (computeLoanOutput t).totalCostWithoutInsurance ≤ (computeLoanOutput t).totalCost := by
  refine ⟨rfl, rfl, rfl, ?_⟩
  have h1 : (computeLoanOutput t).totalCostWithoutInsurance =
      t.initialFees + (computeInterestCost t.annualRate t.months t.principal).totalInterests :=
    rfl
  have h2 : (computeLoanOutput t).totalCost =
      t.initialFees + t.insuranceCost +
        (computeInterestCost t.annualRate t.months t.principal).totalInterests := rfl
  rw [h1, h2]
  linarith

/-- Witness for C9 on a concrete loan with nonnegative insurance cost. -/
theorem loanOutput_totals_witness :
    (computeLoanOutput ⟨99, 4 / 33, 1, 0, 5⟩).totalCostWithoutInsurance ≤
      (computeLoanOutput ⟨99, 4 / 33, 1, 0, 5⟩).totalCost :=
  (loanOutput_totals ⟨99, 4 / 33, 1, 0, 5⟩ (by norm_num)).2.2.2

/-- C10: with `insuranceCost = 0` the two solver calls of `computeLoanOutput`
receive identical arguments, so `totalCost = totalCostWithoutInsurance`
exactly and, whenever the solve converges, `effectiveInsuranceAnnualRate`
is exactly `0` (and is NaN, i.e. `none`, otherwise). -/
theorem zero_insurance_decomposition (t : LoanInput) (hI : t.insuranceCost = 0) :
    allInSolveInput t = exclInsuranceSolveInput t ∧
    (computeLoanOutput t).totalCost = (computeLoanOutput t).totalCostWithoutInsurance ∧
    (∀ r, computeEffectiveAnnualRate (allInSolveInput t) = .converged r →
      (computeLoanOutput t).effectiveInsuranceAnnualRate = some 0) ∧
    ((computeLoanOutput t).effectiveInsuranceAnnualRate = none ∨
      (computeLoanOutput t).effectiveInsuranceAnnualRate = some 0) := by
  have hsame : allInSolveInput t = exclInsuranceSolveInput t := by
    simp [allInSolveInput, exclInsuranceSolveInput, hI]
  have hkey : ∀ r, computeEffectiveAnnualRate (allInSolveInput t) = .converged r →
      (computeLoanOutput t).effectiveInsuranceAnnualRate = some 0 := by
    intro r hr
    show subNaN (rateOrNaN (computeEffectiveAnnualRate (allInSolveInput t)))
        (rateOrNaN (computeEffectiveAnnualRate (exclInsuranceSolveInput t))) = some 0
    rw [← hsame, hr]
    show some (r - r) = some 0
    rw [sub_self]
  refine ⟨hsame, ?_, hkey, ?_⟩
  · have h2 : (computeLoanOutput t).totalCost =
        t.initialFees + t.insuranceCost +
          (computeInterestCost t.annualRate t.months t.principal).totalInterests := rfl
    have h1 : (computeLoanOutput t).totalCostWithoutInsurance =
        t.initialFees +
          (computeInterestCost t.annualRate t.months t.principal).totalInterests := rfl
    rw [h1, h2, hI, add_zero]
  · cases hres : computeEffectiveAnnualRate (allInSolveInput t) with
    | converged r => exact Or.inr (hkey r hres)
    | nonConverged =>
      refine Or.inl ?_
      show subNaN (rateOrNaN (computeEffectiveAnnualRate (allInSolveInput t)))
          (rateOrNaN (computeEffectiveAnnualRate (exclInsuranceSolveInput t))) = none
      rw [← hsame, hres]
      rfl

/-- Witness for C10: a converging zero-insurance loan has an insurance rate
share of exactly zero. -/
theorem zero_insurance_decomposition_witness :
    (computeLoanOutput ⟨99, 4 / 33, 1, 0, 0⟩).effectiveInsuranceAnnualRate = some 0 := by
  have hall : computeEffectiveAnnualRate (allInSolveInput ⟨99, 4 / 33, 1, 0, 0⟩) =
      .converged ((1 / (99 / 100 : ℚ)) ^ 12 - 1) := by
    refine computeEffectiveAnnualRate_of_ok _ _ (newton_ok_at_start _ _ ?_)
    norm_num [objective, objectiveFunction, averageInstallment, allInSolveInput,
      computeInterestCost, epsilon, Finset.sum_range_succ]
  exact (zero_insurance_decomposition ⟨99, 4 / 33, 1, 0, 0⟩ rfl).2.2.1 _ hall

/-- With a zero average installment the objective is the constant
`initialFees - principal` with derivative `0`. -/
lemma objective_of_zero_avg (inp : EffRateInput) (havg : averageInstallment inp = 0)
    (x : ℚ) : objective inp x = (inp.initialFees - inp.principal, 0) := by
  rw [objective, objectiveFunction, havg]
  simp

/-- C6 counterexample: with `averageInstallment = 0` and `initialFees −
principal` nonzero but below the tolerance (here `5e-8`), the solver does
NOT report non-convergence: it accepts the starting point and returns a
finite rate. -/
theorem degenerate_cashflow_counterexample :
    averageInstallment ⟨1, 0, 1 / 20000000, 1 / 20000000⟩ = 0 ∧
    (1 / 20000000 : ℚ) - 0 ≠ 0 ∧
    computeEffectiveAnnualRate ⟨1, 0, 1 / 20000000, 1 / 20000000⟩ ≠ .nonConverged := by
  refine ⟨by norm_num [averageInstallment], by norm_num, ?_⟩
  have h : computeEffectiveAnnualRate ⟨1, 0, 1 / 20000000, 1 / 20000000⟩ =
      .converged ((1 / (99 / 100 : ℚ)) ^ 12 - 1) := by
    refine computeEffectiveAnnualRate_of_ok _ _ (newton_ok_at_start _ _ ?_)
    norm_num [objective, objectiveFunction, averageInstallment, epsilon,
      Finset.sum_range_succ]
    rw [abs_of_pos (by norm_num : (0 : ℚ) < 1 / 20000000)]
    norm_num
  rw [h]
  intro hc
  exact EffRateResult.noConfusion hc

/-- C6 amended: for every solver input with `averageInstallment = 0` and
`|initialFees − principal| ≥ 1e-7` (the residual clears the tolerance), the
solver reports the tagged `nonConverged` outcome. -/
theorem degenerate_cashflow_nonconverged (inp : EffRateInput)
    (havg : averageInstallment inp = 0)
    (hgap : epsilon ≤ |inp.initialFees - inp.principal|) :
    computeEffectiveAnnualRate inp = .nonConverged := by
  refine computeEffectiveAnnualRate_of_error inp .derivativeTooSmall
    (newton_derivAbort_at_start _ _ ?_ ?_)
  · rw [objective_of_zero_avg inp havg]
    exact not_lt.mpr hgap
  · rw [objective_of_zero_avg inp havg]
    show |(0 : ℚ)| < epsilon
    norm_num [epsilon]

/-- Witness for the amended C6: twelve periods, principal `0`, fees `7`,
`totalCost = 7` give a zero average installment and a residual `7 ≥ 1e-7`. -/
theorem degenerate_cashflow_nonconverged_witness :
    computeEffectiveAnnualRate ⟨12, 0, 7, 7⟩ = .nonConverged :=
  degenerate_cashflow_nonconverged ⟨12, 0, 7, 7⟩
    (by norm_num [averageInstallment]) (by norm_num [epsilon])

/-- C7 counterexample: at `principal = 0` (a valid input, `principal ≥ 0`)
raising the annual rate from `0` to `12` leaves the installment unchanged
at `0`, so the increase is not strict. -/
theorem rate_monotonicity_counterexample :
    (0 : ℚ) ≤ 0 ∧ (0 : ℚ) < 12 ∧
    ¬ ((computeInterestCost 0 1 0).monthlyInstallmentWithoutInsurance <
        (computeInterestCost 12 1 0).monthlyInstallmentWithoutInsurance) := by
  refine ⟨le_refl 0, by norm_num, ?_⟩
  rw [computeInterestCost_zero_rate, computeInterestCost_pos_rate 12 1 0 (by norm_num)]
  norm_num

/-- The installment equals `principal` divided by the annuity (present-value)
sum `Σ_{i=1..periods} (1/(1+r))^i`, in both branches of the engine. -/
lemma installment_eq_div_annuitySum (P a : ℚ) (n : ℕ) (ha : 0 ≤ a) (hn : 1 ≤ n) :
    (computeInterestCost a n P).monthlyInstallmentWithoutInsurance =
      P / ∑ i ∈ Finset.range n, (1 / (1 + a / 12)) ^ (i + 1) := by
  rcases eq_or_lt_of_le ha with h0 | hpos
  · rw [← h0, computeInterestCost_zero_rate]
    norm_num
  · rw [computeInterestCost_pos_rate _ _ _ (ne_of_gt hpos)]
    have hrpos : 0 < a / 12 := div_pos hpos (by norm_num)
    have hune : (1 + a / 12 : ℚ) ≠ 0 := by linarith
    have hrne : (a / 12 : ℚ) ≠ 0 := ne_of_gt hrpos
    have hgeo : ∀ m : ℕ, ∑ i ∈ Finset.range m, (1 / (1 + a / 12)) ^ (i + 1) =
        ((1 + a / 12) ^ m - 1) / ((1 + a / 12) ^ m * (a / 12)) := by
      intro m
      induction m with
      | zero => simp
      | succ k ihk =>
        rw [Finset.sum_range_succ, ihk]
        have hpk : ((1 + a / 12) : ℚ) ^ k ≠ 0 := pow_ne_zero k hune
        have hpk1 : ((1 + a / 12) : ℚ) ^ (k + 1) ≠ 0 := pow_ne_zero (k + 1) hune
        field_simp
        ring
    rw [hgeo n, div_div_eq_mul_div]
    ring

/-- The annuity sum is positive for nonnegative rates and at least one period. -/
lemma annuitySum_pos (a : ℚ) (n : ℕ) (ha : 0 ≤ a) (hn : 1 ≤ n) :
    0 < ∑ i ∈ Finset.range n, (1 / (1 + a / 12)) ^ (i + 1) := by
  have h12 : (0 : ℚ) ≤ a / 12 := div_nonneg ha (by norm_num)
  have hu : (0 : ℚ) < 1 + a / 12 := by linarith
  refine Finset.sum_pos (fun i _ => pow_pos (one_div_pos.mpr hu) (i + 1))
    ⟨0, Finset.mem_range.mpr (by omega)⟩

/-- The annuity sum strictly decreases when the annual rate increases. -/
lemma annuitySum_strictAnti (n : ℕ) (hn : 1 ≤ n) (a1 a2 : ℚ)
    (h1 : 0 ≤ a1) (h12 : a1 < a2) :
    ∑ i ∈ Finset.range n, (1 / (1 + a2 / 12)) ^ (i + 1) <
      ∑ i ∈ Finset.range n, (1 / (1 + a1 / 12)) ^ (i + 1) := by
  have h112 : (0 : ℚ) ≤ a1 / 12 := div_nonneg h1 (by norm_num)
  have hu1 : (0 : ℚ) < 1 + a1 / 12 := by linarith
  have hlt : a1 / 12 < a2 / 12 := by linarith
  have hu2 : (0 : ℚ) < 1 + a2 / 12 := by linarith
  have hv : (1 : ℚ) / (1 + a2 / 12) < 1 / (1 + a1 / 12) :=
    one_div_lt_one_div_of_lt hu1 (by linarith)
  have hv2 : (0 : ℚ) < 1 / (1 + a2 / 12) := one_div_pos.mpr hu2
  refine Finset.sum_lt_sum_of_nonempty ⟨0, Finset.mem_range.mpr (by omega)⟩ ?_
  intro i _
  exact pow_lt_pow_left₀ hv (le_of_lt hv2) (Nat.succ_ne_zero i)

/-- In both branches `totalInterests = installment * periods - principal`. -/
lemma totalInterests_eq (P a : ℚ) (n : ℕ) (ha : 0 ≤ a) (hn : 1 ≤ n) :
    (computeInterestCost a n P).totalInterests =
      (computeInterestCost a n P).monthlyInstallmentWithoutInsurance * (n : ℚ) - P := by
  rcases eq_or_lt_of_le ha with h0 | hpos
  · rw [← h0, computeInterestCost_zero_rate]
    have hn0 : ((n : ℚ)) ≠ 0 := Nat.cast_ne_zero.mpr (by omega)
    show (0 : ℚ) = P / (n : ℚ) * (n : ℚ) - P
    rw [div_mul_cancel₀ P hn0, sub_self]
  · rw [computeInterestCost_pos_rate _ _ _ (ne_of_gt hpos)]

/-- C7 amended: for every `principal > 0`, `periods ≥ 1`, and
`0 ≤ a1 < a2`, increasing the annual rate strictly increases both the
installment and the total interest. (The claim as stated fails at
`principal = 0`, where both outputs are constantly `0`.) -/
theorem rate_monotonicity_amended (P : ℚ) (n : ℕ) (a1 a2 : ℚ)
    (hP : 0 < P) (hn : 1 ≤ n) (h1 : 0 ≤ a1) (h12 : a1 < a2) :
    (computeInterestCost a1 n P).monthlyInstallmentWithoutInsurance <
      (computeInterestCost a2 n P).monthlyInstallmentWithoutInsurance ∧
    (computeInterestCost a1 n P).totalInterests <
      (computeInterestCost a2 n P).totalInterests := by
  have h2 : 0 ≤ a2 := le_trans h1 (le_of_lt h12)
  have hS2pos := annuitySum_pos a2 n h2 hn
  have hSS := annuitySum_strictAnti n hn a1 a2 h1 h12
  have hinst : (computeInterestCost a1 n P).monthlyInstallmentWithoutInsurance <
      (computeInterestCost a2 n P).monthlyInstallmentWithoutInsurance := by
    rw [installment_eq_div_annuitySum P a1 n h1 hn,
      installment_eq_div_annuitySum P a2 n h2 hn]
    exact div_lt_div_of_pos_left hP hS2pos hSS
  refine ⟨hinst, ?_⟩
  rw [totalInterests_eq P a1 n h1 hn, totalInterests_eq P a2 n h2 hn]
  have hn0 : (0 : ℚ) < (n : ℚ) := by
    exact_mod_cast Nat.lt_of_lt_of_le Nat.zero_lt_one hn
  have := mul_lt_mul_of_pos_right hinst hn0
  linarith

/-- Witness for the amended C7 at `principal = 100`, one period, rates `0 < 12`. -/
theorem rate_monotonicity_amended_witness :
    (computeInterestCost 0 1 100).monthlyInstallmentWithoutInsurance <
      (computeInterestCost 12 1 100).monthlyInstallmentWithoutInsurance ∧
    (computeInterestCost 0 1 100).totalInterests <
      (computeInterestCost 12 1 100).totalInterests :=
  rate_monotonicity_amended 100 1 0 12 (by norm_num) (le_refl 1) (le_refl 0) (by norm_num)

/-- C8: the amortization engine has no failure modes for finite nonnegative
inputs with `periods ≥ 1`: the divisor `periods` is nonzero, in the
positive-rate branch the divisor `f - 1` is nonzero (including at
`periods = 1`), and in each branch the division is exact (multiplying back
by the divisor recovers the numerator), so the result is a well-defined
finite rational. -/
theorem amortization_no_failure (principal annualRate : ℚ) (months : ℕ)
    (ha : 0 ≤ annualRate) (hm : 1 ≤ months) :
    ((months : ℚ) ≠ 0) ∧
    (0 < annualRate → (1 + annualRate / 12) ^ months - 1 ≠ 0) ∧
    (annualRate = 0 →
      (computeInterestCost annualRate months principal).monthlyInstallmentWithoutInsurance *
        (months : ℚ) = principal) ∧
    (0 < annualRate →
      (computeInterestCost annualRate months principal).monthlyInstallmentWithoutInsurance *
          ((1 + annualRate / 12) ^ months - 1) =
        principal * (annualRate / 12) * (1 + annualRate / 12) ^ months) := by
  have hm0 : ((months : ℚ)) ≠ 0 := Nat.cast_ne_zero.mpr (by omega)
  have hden : 0 < annualRate → (1 + annualRate / 12) ^ months - 1 ≠ 0 := by
    intro hpos
    have hrpos : 0 < annualRate / 12 := div_pos hpos (by norm_num)
    have hpow1 : (1 : ℚ) < (1 + annualRate / 12) ^ months :=
      one_lt_pow₀ (by linarith) (by omega)
    exact sub_ne_zero.mpr (ne_of_gt hpow1)
  refine ⟨hm0, hden, ?_, ?_⟩
  · intro h0
    rw [h0, computeInterestCost_zero_rate]
    exact div_mul_cancel₀ principal hm0
  · intro hpos
    rw [computeInterestCost_pos_rate _ _ _ (ne_of_gt hpos)]
    exact div_mul_cancel₀ _ (hden hpos)

/-- Witness for C8 at `principal = 100`, `annualRate = 0`, `periods = 4`:
the installment times the period count recovers the principal. -/
theorem amortization_no_failure_witness :
    (computeInterestCost 0 4 100).monthlyInstallmentWithoutInsurance * ((4 : ℕ) : ℚ) = 100 :=
  (amortization_no_failure 100 0 4 (le_refl 0) (by norm_num)).2.2.1 rfl

end LoanRanger
